import Mathlib

/-!
Verification of the NiceThumbsBuddy autoindex-gallery scripts.

This file gives a shallow embedding, in Lean, of the parts of the
repository's JavaScript that the checked properties talk about:

* the folder-name classifier `getFolderType`,
* the preference store `getPref`/`setPref` over both backing stores,
* the build pipeline (ordered concatenation of source fragments),
* the metadata-cache pruning pass inside `saveThrottled`,
* the lightbox zoom/pan state machine of `soulful-thumbs-2.1.1.user.js`,
* the Fisher-Yates `shuffle` helper,
* the autoindex detector `looksLikeAutoIndex`, and
* the listing parser `parseIndex`.

Host-provided functionality that the scripts call but do not define
(URL resolution via `new URL`, `decodeURIComponent`, the
`Intl.Collator` natural comparator, `Math.random`) is modelled by
explicit function parameters, so every theorem quantifies over all
behaviours of the host.  JavaScript numbers are modelled by exact
rationals where arithmetic matters (the lightbox geometry) and by
naturals/integers elsewhere; the numeric claims proved here hold in
any ordered field, so the float/rational gap does not affect them.
-/

/-! ## String helpers

JavaScript regular-expression alternations of literal words
(`/video|movie|.../.test(s)`) are substring tests.  `strHas s pat`
decides whether `pat` occurs contiguously in `s`. -/

/-- Does the pattern list occur at the very start of the text list? -/
def charsStartWith : List Char → List Char → Bool
  | [], _ => true
  | _ :: _, [] => false
  | p :: ps, c :: cs => p = c && charsStartWith ps cs

/-- Does the pattern list occur contiguously anywhere in the text list? -/
def charsHave (pat : List Char) : List Char → Bool
  | [] => charsStartWith pat []
  | c :: cs => charsStartWith pat (c :: cs) || charsHave pat cs

/-- Substring test: does `pat` occur contiguously in `s`? -/
def strHas (s pat : String) : Bool := charsHave pat.toList s.toList

/-- Lowercase of one character.  JavaScript `toLowerCase()` is
Unicode-aware; every string the classifier and detector lowercase in
this development is ASCII, where the two agree. -/
def charLower (c : Char) : Char :=
  if 'A' ≤ c && c ≤ 'Z' then Char.ofNat (c.toNat + 32) else c

/-- Embedding of JavaScript `String.prototype.toLowerCase`. -/
def jsToLower (s : String) : String := String.mk (s.toList.map charLower)

/-! ## Folder classifier (`getFolderType`)

Source (`NiceThumbsBuddy.user.js` lines 190-198, identical in
`src/dom.js`, `NiceThumbs,Buddy.user.js` and the unnamed enhanced
variant): the name is lowercased and tested against five ordered
case-insensitive alternation regexes; the first hit wins. -/

/-- Embedding of `getFolderType`: the JS lowercases the name, then tests
the five alternation regexes in order; each regex is an alternation of
literal words, i.e. a substring test on the lowercased name. -/
def getFolderType (name : String) : String :=
  let n := jsToLower name
  if strHas n "video" || strHas n "movie" || strHas n "film" || strHas n "tv" ||
     strHas n "show" || strHas n "series" then "video"
  else if strHas n "audio" || strHas n "sound" || strHas n "music" || strHas n "mp3" ||
     strHas n "wav" || strHas n "flac" then "audio"
  else if strHas n "photo" || strHas n "image" || strHas n "picture" || strHas n "img" ||
     strHas n "jpg" || strHas n "camera" || strHas n "raw" then "photo"
  else if strHas n "archive" || strHas n "backup" || strHas n "old" || strHas n "save" then "archive"
  else if strHas n "document" || strHas n "doc" || strHas n "pdf" || strHas n "txt" ||
     strHas n "report" then "document"
  else "default"

/-- Modelled from the spec: the classifier described in §4.3, a
first-match walk over the ordered category list video, audio, photo,
archive, document, falling back to `default`.  The term lists are the
ones the code's regexes spell out. -/
def folderCategorySpec : List (String × List String) :=
  [("video", ["video", "movie", "film", "tv", "show", "series"]),
   ("audio", ["audio", "sound", "music", "mp3", "wav", "flac"]),
   ("photo", ["photo", "image", "picture", "img", "jpg", "camera", "raw"]),
   ("archive", ["archive", "backup", "old", "save"]),
   ("document", ["document", "doc", "pdf", "txt", "report"])]

/-- First matching category of the ordered spec list, `default` when none
of the term lists hits the lowercased name. -/
def folderTypeSpec (name : String) : String :=
  let n := jsToLower name
  match folderCategorySpec.find? (fun cat => cat.2.any (fun t => strHas n t)) with
  | some cat => cat.1
  | none => "default"

theorem getFolderType_eq_spec (name : String) : getFolderType name = folderTypeSpec name := by
  unfold getFolderType folderTypeSpec folderCategorySpec
  simp only [List.find?, List.any_cons, List.any_nil, Bool.or_false, Bool.or_assoc]
  set n := jsToLower name with hn
  set b1 := strHas n "video" || (strHas n "movie" || (strHas n "film" ||
    (strHas n "tv" || (strHas n "show" || strHas n "series")))) with hb1
  set b2 := strHas n "audio" || (strHas n "sound" || (strHas n "music" ||
    (strHas n "mp3" || (strHas n "wav" || strHas n "flac")))) with hb2
  set b3 := strHas n "photo" || (strHas n "image" || (strHas n "picture" ||
    (strHas n "img" || (strHas n "jpg" || (strHas n "camera" || strHas n "raw"))))) with hb3
  set b4 := strHas n "archive" || (strHas n "backup" || (strHas n "old" ||
    strHas n "save")) with hb4
  set b5 := strHas n "document" || (strHas n "doc" || (strHas n "pdf" ||
    (strHas n "txt" || strHas n "report"))) with hb5
  cases b1 <;> cases b2 <;> cases b3 <;> cases b4 <;> cases b5 <;> rfl

example : getFolderType "Summer Vacation Photos" = "photo" := rfl
example : getFolderType "Backup_2023" = "archive" := rfl
example : getFolderType "Notes" = "default" := rfl
example : getFolderType "Assorted Stuff" = "default" := rfl

/-! ## Preference store (`getPref` / `setPref`)

Source (`NiceThumbs,Buddy.user.js` lines 48-60): the script picks a
backing store once — the host's `GM_getValue`/`GM_setValue` pair when
available, otherwise `localStorage` — and `getPref` returns the stored
value unless it is `undefined`/`null`, in which case it returns the
supplied default.  Both stores are string-keyed maps; `undefined`
(GM, key absent) and `null` (localStorage, key absent) are both
modelled by `Option.none`. -/

/-- State of the host-provided GM key/value facility. -/
structure GMStore where
  vals : List (String × String)

/-- Embedding of `GM_getValue k` (no default argument): the stored value,
or `none` for JavaScript `undefined` when the key is absent. -/
def GM_getValue (g : GMStore) (k : String) : Option String :=
  (g.vals.find? (fun p => p.1 == k)).map (fun p => p.2)

/-- Embedding of `GM_setValue k v`: last write wins. -/
def GM_setValue (g : GMStore) (k v : String) : GMStore :=
  ⟨(k, v) :: g.vals⟩

/-- State of the per-origin `localStorage` fallback area. -/
structure WebStorage where
  items : List (String × String)

/-- Embedding of `localStorage.getItem(k)`: the stored value, or `none`
for JavaScript `null` when the key is absent. -/
def storageGetItem (w : WebStorage) (k : String) : Option String :=
  (w.items.find? (fun p => p.1 == k)).map (fun p => p.2)

/-- Embedding of `localStorage.setItem(k, v)`: last write wins. -/
def storageSetItem (w : WebStorage) (k v : String) : WebStorage :=
  ⟨(k, v) :: w.items⟩

/-- Embedding of `getPref(key, def)` over the GM backing store:
`v !== undefined && v !== null ? v : def`. -/
def getPrefGM (g : GMStore) (key dflt : String) : String :=
  match GM_getValue g key with
  | some v => v
  | none => dflt

/-- Embedding of `setPref(key, val)` over the GM backing store. -/
def setPrefGM (g : GMStore) (key val : String) : GMStore :=
  GM_setValue g key val

/-- Embedding of `getPref(key, def)` over the `localStorage` fallback. -/
def getPrefLS (w : WebStorage) (key dflt : String) : String :=
  match storageGetItem w key with
  | some v => v
  | none => dflt

/-- Embedding of `setPref(key, val)` over the `localStorage` fallback. -/
def setPrefLS (w : WebStorage) (key val : String) : WebStorage :=
  storageSetItem w key val

/-! ## Build pipeline

Source (`src/unnamed/part_001`): the build reads a fixed ordered list
of fragment paths and joins their contents with `'\n'`.  The
filesystem is modelled by the `readFile` parameter. -/

/-- The fixed, ordered fragment list of the build script. -/
def buildFiles : List String :=
  ["src/header.js", "src/config.js", "src/utils.js", "src/dom.js",
   "src/ui.js", "src/main.js", "src/footer.js"]

/-- Embedding of the build step:
`files.map(f => fs.readFileSync(f, 'utf8')).join('\n')`. -/
def buildOutput (readFile : String → String) : String :=
  String.intercalate "\n" (buildFiles.map readFile)

/-! ## Metadata cache pruning

Source (`NiceThumbsBuddy.user.js` lines 61 and 1410-1438): the cache is
a JavaScript `Map` (insertion-ordered; setting an existing key updates
it in place, a new key appends).  `saveThrottled` prunes the map before
persisting: when its population exceeds `CACHE_MAX_SIZE` it keeps only
`entries.slice(-Math.floor(CACHE_MAX_SIZE * 0.8))`, the most recently
added entries.  `Math.floor(10000 * 0.8)` evaluates to exactly `8000`
in double precision.  The key type is generic, as a JavaScript `Map`'s
is; the script always uses absolute-URL strings. -/

/-- Cached enrichment for one resource URL (§3 `MetadataRecord`). -/
structure MetadataRecord where
  bytes : Option Nat := none
  mtime : Option String := none
  width : Option Nat := none
  height : Option Nat := none
  contentType : Option String := none
  fetchedAt : Option Nat := none
deriving DecidableEq

/-- Maximum cache population before pruning. -/
def CACHE_MAX_SIZE : Nat := 10000

/-- Embedding of `Map.prototype.set`: update in place when the key
exists, append otherwise. -/
def mapSet {K : Type} [DecidableEq K] (m : List (K × MetadataRecord)) (k : K)
    (v : MetadataRecord) : List (K × MetadataRecord) :=
  if m.any (fun p => p.1 = k) then
    m.map (fun p => if p.1 = k then (k, v) else p)
  else
    m ++ [(k, v)]

/-- Insert a batch of records in order. -/
def insertAll {K : Type} [DecidableEq K] (m : List (K × MetadataRecord))
    (ps : List (K × MetadataRecord)) : List (K × MetadataRecord) :=
  ps.foldl (fun acc p => mapSet acc p.1 p.2) m

/-- Embedding of the pruning pass of `saveThrottled`: when the
population exceeds the cap, keep only the most recently added
`⌊CACHE_MAX_SIZE·0.8⌋` entries. -/
def prunePass {K : Type} (m : List (K × MetadataRecord)) : List (K × MetadataRecord) :=
  if m.length > CACHE_MAX_SIZE then m.drop (m.length - CACHE_MAX_SIZE * 8 / 10) else m

/-! ## Helper lemmas -/

theorem insertAll_of_nodup {K : Type} [DecidableEq K] :
    ∀ (ps m : List (K × MetadataRecord)),
      (ps.map Prod.fst).Nodup →
      (∀ p ∈ ps, ∀ q ∈ m, p.1 ≠ q.1) →
      insertAll m ps = m ++ ps := by
  intro ps
  induction ps with
  | nil => intro m _ _; simp [insertAll]
  | cons p rest ih =>
    intro m hnd hdisj
    have hfresh : m.any (fun q => q.1 = p.1) = false := by
      rw [List.any_eq_false]
      intro q hq
      simp only [decide_eq_true_eq]
      exact fun hqe => hdisj p (List.mem_cons_self p rest) q hq hqe.symm
    have hstep : insertAll m (p :: rest) = insertAll (m ++ [p]) rest := by
      simp only [insertAll, List.foldl_cons, mapSet, hfresh]
      simp
    rw [hstep]
    have hnd0 : (p.1 :: rest.map Prod.fst).Nodup := by simpa using hnd
    have hnd' : (rest.map Prod.fst).Nodup := (List.nodup_cons.mp hnd0).2
    have hp1 : p.1 ∉ rest.map Prod.fst := (List.nodup_cons.mp hnd0).1
    have hdisj' : ∀ x ∈ rest, ∀ q ∈ m ++ [p], x.1 ≠ q.1 := by
      intro x hx q hq
      rcases List.mem_append.mp hq with hq | hq
      · exact hdisj x (List.mem_cons_of_mem p hx) q hq
      · have : q = p := by simpa using hq
        subst this
        intro hxe
        exact hp1 (hxe ▸ List.mem_map_of_mem Prod.fst hx)
    rw [ih (m ++ [p]) hnd' hdisj']
    simp

theorem getLast?_drop_of_lt {α : Type} (l : List α) (n : Nat) (h : n < l.length) :
    (l.drop n).getLast? = l.getLast? := by
  conv_rhs => rw [← List.take_append_drop n l]
  rw [List.getLast?_append]
  have hne : l.drop n ≠ [] := by
    intro hnil
    have := List.length_drop n l
    rw [hnil] at this
    simp at this
    omega
  rcases List.exists_mem_of_ne_nil _ hne with ⟨a, _⟩
  cases hlast : (l.drop n).getLast? with
  | none => exact absurd (List.getLast?_eq_none_iff.mp hlast) hne
  | some b => rfl

/-! ## Claim theorems: classifier, preference store, build, cache -/

/-- C4 (corrected): the spec's example "Notes" is wrong — none of the
document-category terms (`document|doc|pdf|txt|report`) occurs in
"notes", so the classifier yields `default`, not `document`. -/
theorem getFolderType_notes_counterexample : getFolderType "Notes" ≠ "document" := by
  decide

/-- C4 (amended): the folder classifier maps a name to the first
matching category in the fixed order video, audio, photo, archive,
document, and to `default` when none matches; "Summer Vacation Photos"
classifies as `photo`, "Backup_2023" as `archive`, and "Notes" and
"Assorted Stuff" both as `default`. -/
theorem getFolderType_spec :
    (∀ name, getFolderType name = folderTypeSpec name) ∧
    getFolderType "Summer Vacation Photos" = "photo" ∧
    getFolderType "Backup_2023" = "archive" ∧
    getFolderType "Notes" = "default" ∧
    getFolderType "Assorted Stuff" = "default" :=
  ⟨getFolderType_eq_spec, rfl, rfl, rfl, rfl⟩

/-- C8: `set` then `get` on the preference store returns the stored
value, and `get` of an absent key returns the supplied default, for
both the GM backing store and the `localStorage` fallback. -/
theorem prefStore_roundtrip (g : GMStore) (w : WebStorage) (k v d k2 d2 : String)
    (hg : GM_getValue g k2 = none) (hw : storageGetItem w k2 = none) :
    getPrefGM (setPrefGM g k v) k d = v ∧
    getPrefLS (setPrefLS w k v) k d = v ∧
    getPrefGM g k2 d2 = d2 ∧
    getPrefLS w k2 d2 = d2 := by
  refine ⟨?_, ?_, ?_, ?_⟩
  · simp [getPrefGM, setPrefGM, GM_setValue, GM_getValue]
  · simp [getPrefLS, setPrefLS, storageSetItem, storageGetItem]
  · simp [getPrefGM, hg]
  · simp [getPrefLS, hw]

/-- C8 witness: a concrete round-trip through both stores. -/
theorem prefStore_roundtrip_witness :
    getPrefGM (setPrefGM ⟨[]⟩ "ntb:view" "list") "ntb:view" "grid" = "list" ∧
    getPrefLS (setPrefLS ⟨[]⟩ "ntb:view" "list") "ntb:view" "grid" = "list" ∧
    getPrefGM ⟨[]⟩ "ntb:sort" "name" = "name" ∧
    getPrefLS ⟨[]⟩ "ntb:sort" "name" = "name" :=
  prefStore_roundtrip ⟨[]⟩ ⟨[]⟩ "ntb:view" "list" "grid" "ntb:sort" "name" rfl rfl

/-- C9: the build output is exactly the fragment contents joined, in
the declared order, with newline separation, so two runs against
unchanged fragment contents produce identical output. -/
theorem build_deterministic (r1 r2 : String → String)
    (h : ∀ f ∈ buildFiles, r1 f = r2 f) :
    buildOutput r1 = buildOutput r2 ∧
    buildOutput r1 = String.intercalate "\n" (buildFiles.map r1) := by
  constructor
  · unfold buildOutput
    rw [List.map_congr_left h]
  · rfl

/-- C9 witness: two concrete read functions agreeing on the fragment
list produce the same artifact. -/
theorem build_deterministic_witness :
    buildOutput (fun _ => "x") = buildOutput (fun f => if f = "other.js" then "y" else "x") ∧
    buildOutput (fun _ => "x") =
      String.intercalate "\n" (buildFiles.map (fun _ => "x")) :=
  build_deterministic (fun _ => "x") (fun f => if f = "other.js" then "y" else "x")
    (by decide)

/-- C7: inserting `CACHE_MAX_SIZE + 1 = 10001` distinct URL records
makes the pruning pass of `saveThrottled` cut the cache to the most
recently added `⌊CACHE_MAX_SIZE·0.8⌋ = 8000` entries — at most 10000 —
and the most recently inserted record is never evicted. -/
theorem cachePrune_bound {K : Type} [DecidableEq K]
    (ps : List (K × MetadataRecord))
    (hlen : ps.length = CACHE_MAX_SIZE + 1)
    (hkeys : (ps.map Prod.fst).Nodup) :
    (prunePass (insertAll [] ps)).length = CACHE_MAX_SIZE * 8 / 10 ∧
    (prunePass (insertAll [] ps)).length ≤ CACHE_MAX_SIZE ∧
    (prunePass (insertAll [] ps)).getLast? = ps.getLast? := by
  have hins : insertAll [] ps = ps := by
    have := insertAll_of_nodup ps [] hkeys (by intro p _ q hq; simp at hq)
    simpa using this
  rw [hins]
  have hgt : ps.length > CACHE_MAX_SIZE := by omega
  have hprune : prunePass ps = ps.drop (ps.length - CACHE_MAX_SIZE * 8 / 10) := by
    unfold prunePass
    rw [if_pos hgt]
  refine ⟨?_, ?_, ?_⟩
  · rw [hprune, List.length_drop, hlen]
    rfl
  · rw [hprune, List.length_drop, hlen]
    decide
  · rw [hprune]
    apply getLast?_drop_of_lt
    rw [hlen]
    decide

/-- Concrete batch of 10001 distinct-keyed records for the C7 witness. -/
def cacheBatch : List (Nat × MetadataRecord) :=
  (List.range (CACHE_MAX_SIZE + 1)).map (fun i => (i, {}))

/-- C7 witness: the pruning pass applied to 10001 concrete distinct
records keeps exactly 8000, within the 10000 cap, ending with the most
recently inserted record. -/
theorem cachePrune_bound_witness :
    (prunePass (insertAll [] cacheBatch)).length = CACHE_MAX_SIZE * 8 / 10 ∧
    (prunePass (insertAll [] cacheBatch)).length ≤ CACHE_MAX_SIZE ∧
    (prunePass (insertAll [] cacheBatch)).getLast? = cacheBatch.getLast? :=
  cachePrune_bound cacheBatch (by simp [cacheBatch])
    (by simp [cacheBatch, List.map_map, Function.comp_def, List.nodup_range])

/-! ## Lightbox zoom and pan (`soulful-thumbs-2.1.1.user.js`)

Source (lines 169-187 of `setupLightbox`): zoom state
`st = {z, x, y, min:.5, max:6, w, h}`; `clampPan` limits each pan
offset to half the overflow of the scaled image over the viewport;
`zoomTo` clamps the requested scale into `[st.min, st.max]`, anchors at
the pointer, and re-clamps pan; the `+`/`-` controls request
`st.z*1.1` and `st.z/1.1`, the wheel requests `st.z*1.1` or `st.z*0.9`;
the `reset` control and the `0` key set `z=1, x=y=0` directly.
JavaScript numbers are modelled by exact rationals; clamping facts
proved here hold in any ordered field. -/

/-- Embedding of the JS helper `clamp(v, min, max)`:
`Math.max(min, Math.min(max, v))`. -/
def jsClamp (v lo hi : ℚ) : ℚ := max lo (min hi v)

/-- Zoom/pan state of the lightbox (`st` in `setupLightbox`). -/
structure LightboxState where
  z : ℚ
  x : ℚ
  y : ℚ
  min : ℚ
  max : ℚ
  w : ℚ
  h : ℚ

/-- Geometry of the zoom wrapper read back from the DOM on each
operation: `clientWidth`, `clientHeight` and the bounding rectangle's
`left`/`top`. -/
structure Viewport where
  vw : ℚ
  vh : ℚ
  left : ℚ
  top : ℚ

/-- Embedding of `clampPan()`: limit each pan offset to half the
overflow of the scaled image size over the viewport size, per axis. -/
def clampPan (env : Viewport) (st : LightboxState) : LightboxState :=
  let iw := st.w * st.z
  let ih := st.h * st.z
  let limX := max 0 ((iw - env.vw) / 2)
  let limY := max 0 ((ih - env.vh) / 2)
  { st with x := jsClamp st.x (-limX) limX, y := jsClamp st.y (-limY) limY }

/-- Embedding of `zoomTo(z, cx, cy)`: clamp the requested scale into
`[st.min, st.max]`, keep the point under the pointer fixed, then
re-clamp the pan offsets. -/
def zoomTo (env : Viewport) (st : LightboxState) (z cx cy : ℚ) : LightboxState :=
  let px := (cx - env.left - st.x) / st.z
  let py := (cy - env.top - st.y) / st.z
  let nz := jsClamp z st.min st.max
  clampPan env { st with x := cx - env.left - px * nz, y := cy - env.top - py * nz, z := nz }

/-- A zoom request: the `+` control (`st.z*1.1`), the `-` control
(`st.z/1.1`), or the two wheel directions (`st.z*1.1` / `st.z*0.9`). -/
inductive ZoomOp where
  | plusBtn (cx cy : ℚ)
  | minusBtn (cx cy : ℚ)
  | wheelUp (cx cy : ℚ)
  | wheelDown (cx cy : ℚ)

/-- Apply one zoom operation through `zoomTo`. -/
def applyZoomOp (env : Viewport) (st : LightboxState) : ZoomOp → LightboxState
  | .plusBtn cx cy => zoomTo env st (st.z * (11/10)) cx cy
  | .minusBtn cx cy => zoomTo env st (st.z / (11/10)) cx cy
  | .wheelUp cx cy => zoomTo env st (st.z * (11/10)) cx cy
  | .wheelDown cx cy => zoomTo env st (st.z * (9/10)) cx cy

/-- Apply a sequence of zoom operations in order. -/
def applyZoomOps (env : Viewport) : List ZoomOp → LightboxState → LightboxState
  | [], st => st
  | op :: ops, st => applyZoomOps env ops (applyZoomOp env st op)

/-- Embedding of the `reset` control (and the `0` key):
`st.z = 1; st.x = st.y = 0`. -/
def resetZoom (st : LightboxState) : LightboxState :=
  { st with z := 1, x := 0, y := 0 }

/-- Embedding of one pointer-drag movement while panning: the handler
sets the offsets to drag-start position plus pointer delta, then
re-clamps. -/
def panMove (env : Viewport) (st : LightboxState) (dx dy : ℚ) : LightboxState :=
  clampPan env { st with x := st.x + dx, y := st.y + dy }

theorem jsClamp_mem (v lo hi : ℚ) (h : lo ≤ hi) :
    lo ≤ jsClamp v lo hi ∧ jsClamp v lo hi ≤ hi := by
  unfold jsClamp
  constructor
  · exact le_max_left lo (min hi v)
  · exact max_le h (min_le_left hi v)

theorem clampPan_fields (env : Viewport) (st : LightboxState) :
    (clampPan env st).z = st.z ∧ (clampPan env st).w = st.w ∧
    (clampPan env st).h = st.h ∧ (clampPan env st).min = st.min ∧
    (clampPan env st).max = st.max := by
  unfold clampPan
  exact ⟨rfl, rfl, rfl, rfl, rfl⟩

theorem clampPan_bounds (env : Viewport) (st : LightboxState) :
    |(clampPan env st).x| ≤ max 0 ((st.w * st.z - env.vw) / 2) ∧
    |(clampPan env st).y| ≤ max 0 ((st.h * st.z - env.vh) / 2) := by
  have hx := jsClamp_mem st.x (-(max 0 ((st.w * st.z - env.vw) / 2)))
    (max 0 ((st.w * st.z - env.vw) / 2))
    (by have : (0:ℚ) ≤ max 0 ((st.w * st.z - env.vw) / 2) := le_max_left _ _; linarith)
  have hy := jsClamp_mem st.y (-(max 0 ((st.h * st.z - env.vh) / 2)))
    (max 0 ((st.h * st.z - env.vh) / 2))
    (by have : (0:ℚ) ≤ max 0 ((st.h * st.z - env.vh) / 2) := le_max_left _ _; linarith)
  constructor
  · exact abs_le.mpr ⟨by simpa [clampPan] using hx.1, by simpa [clampPan] using hx.2⟩
  · exact abs_le.mpr ⟨by simpa [clampPan] using hy.1, by simpa [clampPan] using hy.2⟩

theorem clampPan_post (env : Viewport) (s : LightboxState) :
    |(clampPan env s).x| ≤
      max 0 (((clampPan env s).w * (clampPan env s).z - env.vw) / 2) ∧
    |(clampPan env s).y| ≤
      max 0 (((clampPan env s).h * (clampPan env s).z - env.vh) / 2) := by
  have h := clampPan_bounds env s
  have hf := clampPan_fields env s
  rw [hf.1, hf.2.1, hf.2.2.1]
  exact h

theorem zoomTo_z_bounds (env : Viewport) (st : LightboxState) (z cx cy : ℚ)
    (h : st.min ≤ st.max) :
    st.min ≤ (zoomTo env st z cx cy).z ∧ (zoomTo env st z cx cy).z ≤ st.max := by
  unfold zoomTo
  have := jsClamp_mem z st.min st.max h
  simpa [clampPan] using this

theorem applyZoomOp_fields (env : Viewport) (st : LightboxState) (op : ZoomOp) :
    (applyZoomOp env st op).min = st.min ∧ (applyZoomOp env st op).max = st.max ∧
    (applyZoomOp env st op).w = st.w ∧ (applyZoomOp env st op).h = st.h := by
  cases op <;> simp [applyZoomOp, zoomTo, clampPan]

theorem applyZoomOp_z_bounds (env : Viewport) (st : LightboxState) (op : ZoomOp)
    (h : st.min ≤ st.max) :
    st.min ≤ (applyZoomOp env st op).z ∧ (applyZoomOp env st op).z ≤ st.max := by
  cases op <;> exact zoomTo_z_bounds env st _ _ _ h

theorem applyZoomOps_bounds (env : Viewport) :
    ∀ (ops : List ZoomOp) (st : LightboxState),
      st.min ≤ st.z → st.z ≤ st.max →
      st.min ≤ (applyZoomOps env ops st).z ∧
      (applyZoomOps env ops st).z ≤ st.max ∧
      (applyZoomOps env ops st).min = st.min ∧
      (applyZoomOps env ops st).max = st.max := by
  intro ops
  induction ops with
  | nil => intro st h1 h2; exact ⟨h1, h2, rfl, rfl⟩
  | cons op rest ih =>
    intro st h1 h2
    have hmm : st.min ≤ st.max := le_trans h1 h2
    have hf := applyZoomOp_fields env st op
    have hz := applyZoomOp_z_bounds env st op hmm
    have := ih (applyZoomOp env st op) (hf.1 ▸ hz.1) (hf.2.1 ▸ hz.2)
    simp only [applyZoomOps]
    exact ⟨hf.1 ▸ this.1, hf.2.1 ▸ this.2.1, hf.1 ▸ this.2.2.1, hf.2.1 ▸ this.2.2.2⟩

/-- C5: with the lightbox bounds `min = 0.5`, `max = 6`, any nonempty
sequence of zoom-in and zoom-out operations leaves the scale factor in
`[0.5, 6]` regardless of the starting scale, a sequence applied to an
in-bounds state keeps the scale in `[0.5, 6]`, and the reset operation
always sets the scale to exactly 1 and the pan offsets to `(0, 0)`. -/
theorem lightbox_zoom_bounds (env : Viewport) (st : LightboxState)
    (hmin : st.min = 1/2) (hmax : st.max = 6) :
    (∀ (op : ZoomOp) (ops : List ZoomOp),
      1/2 ≤ (applyZoomOps env (op :: ops) st).z ∧
      (applyZoomOps env (op :: ops) st).z ≤ 6) ∧
    (1/2 ≤ st.z → st.z ≤ 6 →
      ∀ ops : List ZoomOp,
        1/2 ≤ (applyZoomOps env ops st).z ∧ (applyZoomOps env ops st).z ≤ 6) ∧
    (resetZoom st).z = 1 ∧ (resetZoom st).x = 0 ∧ (resetZoom st).y = 0 := by
  have hmm : st.min ≤ st.max := by rw [hmin, hmax]; norm_num
  refine ⟨?_, ?_, rfl, rfl, rfl⟩
  · intro op ops
    have hf := applyZoomOp_fields env st op
    have hz := applyZoomOp_z_bounds env st op hmm
    have := applyZoomOps_bounds env ops (applyZoomOp env st op)
      (hf.1 ▸ hz.1) (hf.2.1 ▸ hz.2)
    simp only [applyZoomOps]
    refine ⟨?_, ?_⟩
    · have := this.1
      rw [hf.1, hmin] at this
      exact this
    · have := this.2.1
      rw [hf.2.1, hmax] at this
      exact this
  · intro h1 h2 ops
    have := applyZoomOps_bounds env ops st (hmin ▸ h1) (hmax ▸ h2)
    exact ⟨hmin ▸ this.1, hmax ▸ this.2.1⟩

/-- C5 witness: a concrete state with the code's bounds, run through a
concrete zoom sequence. -/
theorem lightbox_zoom_bounds_witness :
    (∀ (op : ZoomOp) (ops : List ZoomOp),
      1/2 ≤ (applyZoomOps ⟨800, 600, 0, 0⟩ (op :: ops)
        ⟨1, 0, 0, 1/2, 6, 1024, 768⟩).z ∧
      (applyZoomOps ⟨800, 600, 0, 0⟩ (op :: ops)
        ⟨1, 0, 0, 1/2, 6, 1024, 768⟩).z ≤ 6) ∧
    (1/2 ≤ (1:ℚ) → (1:ℚ) ≤ 6 →
      ∀ ops : List ZoomOp,
        1/2 ≤ (applyZoomOps ⟨800, 600, 0, 0⟩ ops ⟨1, 0, 0, 1/2, 6, 1024, 768⟩).z ∧
        (applyZoomOps ⟨800, 600, 0, 0⟩ ops ⟨1, 0, 0, 1/2, 6, 1024, 768⟩).z ≤ 6) ∧
    (resetZoom ⟨1, 0, 0, 1/2, 6, 1024, 768⟩).z = 1 ∧
    (resetZoom ⟨1, 0, 0, 1/2, 6, 1024, 768⟩).x = 0 ∧
    (resetZoom ⟨1, 0, 0, 1/2, 6, 1024, 768⟩).y = 0 :=
  lightbox_zoom_bounds ⟨800, 600, 0, 0⟩ ⟨1, 0, 0, 1/2, 6, 1024, 768⟩ rfl rfl

/-- C6: after any pan movement and after any zoom operation, each pan
offset is clamped per axis to at most half the overflow of the scaled
image size over the viewport size, so the image can never be dragged
fully out of view. -/
theorem lightbox_pan_clamped (env : Viewport) (st : LightboxState)
    (dx dy : ℚ) (op : ZoomOp) :
    (|(panMove env st dx dy).x| ≤
        max 0 (((panMove env st dx dy).w * (panMove env st dx dy).z - env.vw) / 2) ∧
      |(panMove env st dx dy).y| ≤
        max 0 (((panMove env st dx dy).h * (panMove env st dx dy).z - env.vh) / 2)) ∧
    (|(applyZoomOp env st op).x| ≤
        max 0 (((applyZoomOp env st op).w * (applyZoomOp env st op).z - env.vw) / 2) ∧
      |(applyZoomOp env st op).y| ≤
        max 0 (((applyZoomOp env st op).h * (applyZoomOp env st op).z - env.vh) / 2)) := by
  constructor
  · simp only [panMove]
    exact clampPan_post env _
  · cases op <;>
      · simp only [applyZoomOp, zoomTo]
        exact clampPan_post env _

/-! ## Array shuffle (`shuffle`)

Source (`NiceThumbsBuddy.user.js` lines 122-129, identical in
`src/dom.js` and the other variants): Fisher-Yates over a `slice()`
copy of the input.  `Math.floor(Math.random() * (i + 1))` always lies
in `[0, i]`; the random source is modelled by a function
`rand : Nat → Nat` giving the index drawn at each loop position, and
the theorems assume `rand i ≤ i` accordingly (the model leaves the
array unchanged on the unreachable out-of-range draw).  To state the
frame property — the input array object is not mutated — arrays live
in an explicit heap of reference-indexed cells; `slice()` allocates a
fresh cell and the loop only ever writes that cell. -/

/-- Embedding of the swap `[a[i], a[j]] = [a[j], a[i]]`: both reads
happen before both writes. -/
def jsSwap {α : Type} (l : List α) (i j : Nat) : List α :=
  match l[i]?, l[j]? with
  | some xi, some xj => (l.set i xj).set j xi
  | _, _ => l

/-- Embedding of the Fisher-Yates loop
`for (let i = a.length - 1; i > 0; i--) { j = ...; swap }`,
counting `i` down to 1. -/
def fyLoop {α : Type} (rand : Nat → Nat) : List α → Nat → List α
  | a, 0 => a
  | a, i + 1 => fyLoop rand (jsSwap a (i + 1) (rand (i + 1))) i

/-- Read one array cell of the heap. -/
def heapGet {α : Type} (h : List (List α)) (r : Nat) : List α := (h[r]?).getD []

/-- Embedding of `shuffle(array)`: allocate a fresh cell holding
`array.slice()`, run the Fisher-Yates loop on that cell only (the
model folds the loop's in-place writes into one final cell value,
which no other cell can observe), and return the new reference. -/
def shuffleJS {α : Type} (rand : Nat → Nat) (h : List (List α)) (r : Nat) :
    List (List α) × Nat :=
  let a := heapGet h r
  let h1 := h ++ [a]
  let newRef := h.length
  ((h1.set newRef (fyLoop rand (heapGet h1 newRef) ((heapGet h1 newRef).length - 1))), newRef)

theorem cons_set_perm {α : Type} :
    ∀ (t : List α) (m : Nat) (b : α), t[m]? = some b →
      ∀ v, (b :: t.set m v).Perm (v :: t) := by
  intro t
  induction t with
  | nil => intro m b hb; simp at hb
  | cons c t' ih =>
    intro m b hb v
    cases m with
    | zero =>
      simp at hb
      subst hb
      simp only [List.set]
      exact List.Perm.swap v c t' 
    | succ k =>
      simp only [List.getElem?_cons_succ] at hb
      have h1 : (b :: c :: t'.set k v).Perm (c :: b :: t'.set k v) := List.Perm.swap c b _
      have h2 : (c :: b :: t'.set k v).Perm (c :: v :: t') := (ih k b hb v).cons c
      have h3 : (c :: v :: t').Perm (v :: c :: t') := List.Perm.swap v c t'
      simpa [List.set] using (h1.trans h2).trans h3

theorem jsSwap_perm {α : Type} (l : List α) (i j : Nat) : (jsSwap l i j).Perm l := by
  unfold jsSwap
  cases hi : l[i]? with
  | none => exact List.Perm.refl l
  | some xi =>
    cases hj : l[j]? with
    | none => exact List.Perm.refl l
    | some xj =>
      simp only
      have hjlen : j < l.length := by
        by_contra hge
        rw [List.getElem?_eq_none (by omega)] at hj
        exact Option.noConfusion hj
      have hj' : (l.set i xj)[j]? = some xj := by
        by_cases hij : i = j
        · subst hij
          rw [hi] at hj
          have : xi = xj := Option.some.inj hj
          subst this
          exact List.getElem?_set_self (by omega)
        · rw [List.getElem?_set_ne hij]
          exact hj
      have ha := cons_set_perm (l.set i xj) j xj hj' xi
      have hb := cons_set_perm l i xi hi xj
      exact (List.perm_cons xj).mp (ha.trans hb)

theorem fyLoop_perm {α : Type} (rand : Nat → Nat) :
    ∀ (i : Nat) (a : List α), (fyLoop rand a i).Perm a := by
  intro i
  induction i with
  | zero => intro a; exact List.Perm.refl a
  | succ k ih =>
    intro a
    exact (ih (jsSwap a (k + 1) (rand (k + 1)))).trans (jsSwap_perm a (k + 1) (rand (k + 1)))

/-- C10: `shuffle` returns a fresh array whose elements are exactly a
permutation of the input's (same multiset, hence same length), and the
input array — like every other pre-existing array — is left completely
unmodified by the call. -/
theorem shuffle_perm_frame {α : Type} (rand : Nat → Nat) (h : List (List α)) (r : Nat)
    (_hrand : ∀ i, rand i ≤ i) (hr : r < h.length) :
    (heapGet (shuffleJS rand h r).1 (shuffleJS rand h r).2).Perm (heapGet h r) ∧
    (heapGet (shuffleJS rand h r).1 (shuffleJS rand h r).2).length = (heapGet h r).length ∧
    (shuffleJS rand h r).2 ≠ r ∧
    (∀ r2, r2 < h.length → heapGet (shuffleJS rand h r).1 r2 = heapGet h r2) := by
  have hset : (h ++ [heapGet h r]).set h.length
      (fyLoop rand (heapGet (h ++ [heapGet h r]) h.length)
        ((heapGet (h ++ [heapGet h r]) h.length).length - 1)) =
      h ++ [fyLoop rand (heapGet h r) ((heapGet h r).length - 1)] := by
    have hcell : heapGet (h ++ [heapGet h r]) h.length = heapGet h r := by
      unfold heapGet
      rw [List.getElem?_concat_length]
      rfl
    rw [hcell, List.set_append_right _ _ (Nat.le_refl _)]
    simp
  have hperm : (fyLoop rand (heapGet h r) ((heapGet h r).length - 1)).Perm (heapGet h r) :=
    fyLoop_perm rand _ _
  refine ⟨?_, ?_, ?_, ?_⟩
  · show (heapGet ((h ++ [heapGet h r]).set h.length _) h.length).Perm (heapGet h r)
    rw [hset]
    unfold heapGet
    rw [List.getElem?_concat_length]
    exact hperm
  · show (heapGet ((h ++ [heapGet h r]).set h.length _) h.length).length = _
    rw [hset]
    unfold heapGet
    rw [List.getElem?_concat_length]
    exact hperm.length_eq
  · show h.length ≠ r
    omega
  · intro r2 hr2
    show heapGet ((h ++ [heapGet h r]).set h.length _) r2 = heapGet h r2
    rw [hset]
    unfold heapGet
    rw [List.getElem?_append_left hr2]

/-- C10 witness: shuffling the concrete array `[1, 2, 3]` stored at
reference 0 of a one-cell heap. -/
theorem shuffle_perm_frame_witness :
    (heapGet (shuffleJS (fun _ => 0) [[1, 2, 3]] 0).1
        (shuffleJS (fun _ => 0) [[1, 2, 3]] 0).2).Perm (heapGet [[1, 2, 3]] 0) ∧
    (heapGet (shuffleJS (fun _ => 0) [[1, 2, 3]] 0).1
        (shuffleJS (fun _ => 0) [[1, 2, 3]] 0).2).length = (heapGet [[1, 2, 3]] 0).length ∧
    (shuffleJS (fun (_ : Nat) => (0 : Nat)) [([1, 2, 3] : List Nat)] 0).2 ≠ 0 ∧
    (∀ r2, r2 < ([[1, 2, 3]] : List (List Nat)).length →
      heapGet (shuffleJS (fun _ => 0) [[1, 2, 3]] 0).1 r2 = heapGet [[1, 2, 3]] r2) :=
  shuffle_perm_frame (fun _ => 0) [[1, 2, 3]] 0 (fun i => Nat.zero_le i) (by decide)

/-! ## Document model and autoindex detector

Source (`NiceThumbsBuddy.user.js` lines 247-274).  A document is
modelled by the structural content the detector and parser read: title,
the anchor elements in document order, the text of each `pre` block,
whether a `table` exists, and the texts of the `th, td:first-child`
elements.  Each anchor carries its `href` attribute, its resolved
`.href` DOM property (empty when the attribute is absent), its text
content, which selector scopes contain it, and the row/pre metadata
that `extractRowMeta` reads from its surrounding markup (carried as
data because it is a pure function of the anchor's DOM context). -/

/-- Result of `extractRowMeta` for one anchor: best-effort byte size
and modification time from the surrounding table row or `pre` line. -/
structure RowMeta where
  bytes : Option Nat := none
  mtime : Option String := none
deriving DecidableEq

/-- One `a` element of the document. -/
structure Anchor where
  hrefAttr : Option String := none
  domHref : String := ""
  text : String := ""
  inPre : Bool := false
  inTable : Bool := false
  meta : RowMeta := {}
deriving DecidableEq

/-- Structural content of a document, as read by the detector and the
listing parser. -/
structure Document where
  title : String := ""
  anchors : List Anchor := []
  preTexts : List String := []
  hasTableElem : Bool := false
  headCells : List String := []
deriving DecidableEq

/-- Prefix test on strings (JavaScript `String.prototype.startsWith`). -/
def strStarts (s pat : String) : Bool := charsStartWith pat.toList s.toList

/-- Embedding of JavaScript `String.prototype.trim` (the strings
trimmed here are ASCII, where JS and this model agree). -/
def jsTrim (s : String) : String :=
  String.mk (((s.toList.dropWhile Char.isWhitespace).reverse.dropWhile
    Char.isWhitespace).reverse)

/-- Embedding of `isFunctionalLink`: the anchor's resolved `.href` is
truthy and is neither a `mailto:` nor a `javascript:` link. -/
def isFunctionalLink (a : Anchor) : Bool :=
  (a.domHref != "") && !(strStarts a.domHref "mailto:") && !(strStarts a.domHref "javascript:")

/-! ### The `pre` content-pattern regexes

`looksLikeAutoIndex` tests the first `pre` block's text against
`/\d{4}-\d{2}-\d{2}\s+\d{2}:\d{2}\s+\d+(\.\d+)?[KMG]?\s+\S+/i` and
`/\d{2}-[A-Za-z]{3}-\d{4}\s+\d{2}:\d{2}\s+\d+(\.\d+)?[KMG]?\s+\S+/i`.
The character classes of adjacent pattern pieces are disjoint, so a
greedy matcher without backtracking decides these regexes exactly.
Lean's `Char.isWhitespace` covers the whitespace the patterns meet in
practice (JS `\s` also accepts rarer Unicode spaces). -/

/-- Consume exactly `n` characters satisfying `p`. -/
def chompCount (p : Char → Bool) : Nat → List Char → Option (List Char)
  | 0, cs => some cs
  | _ + 1, [] => none
  | n + 1, c :: cs => if p c then chompCount p n cs else none

/-- Consume one expected literal character. -/
def chompChar (x : Char) : List Char → Option (List Char)
  | [] => none
  | c :: cs => if c = x then some cs else none

/-- Consume one or more characters satisfying `p`, greedily. -/
def chompMany1 (p : Char → Bool) : List Char → Option (List Char)
  | [] => none
  | c :: cs => if p c then some (cs.dropWhile p) else none

/-- Consume an optional `(\.\d+)` group. -/
def chompFracOpt (cs : List Char) : List Char :=
  match cs with
  | '.' :: rest =>
    match chompMany1 Char.isDigit rest with
    | some rest2 => rest2
    | none => cs
  | _ => cs

/-- Is the character one of `[KMG]` under the `i` flag? -/
def isKMG (c : Char) : Bool :=
  c = 'K' || c = 'M' || c = 'G' || c = 'k' || c = 'm' || c = 'g'

/-- Consume an optional `[KMG]` (case-insensitive). -/
def chompKMGOpt : List Char → List Char
  | [] => []
  | c :: cs => if isKMG c then cs else c :: cs

/-- Match `\d+(\.\d+)?[KMG]?\s+\S+` at the head of the input. -/
def sizeThenName (cs : List Char) : Bool :=
  match chompMany1 Char.isDigit cs with
  | none => false
  | some r1 =>
    match chompMany1 Char.isWhitespace (chompKMGOpt (chompFracOpt r1)) with
    | none => false
    | some r2 => !r2.isEmpty

/-- Match `\s+` then the size-and-filename tail. -/
def spaceSizeName (cs : List Char) : Bool :=
  match chompMany1 Char.isWhitespace cs with
  | none => false
  | some r => sizeThenName r

/-- Match `\d{4}-\d{2}-\d{2}\s+\d{2}:\d{2}` at the head of the input. -/
def matchISODate (cs : List Char) : Option (List Char) :=
  chompCount Char.isDigit 4 cs >>= chompChar '-' >>= chompCount Char.isDigit 2 >>=
    chompChar '-' >>= chompCount Char.isDigit 2 >>= chompMany1 Char.isWhitespace >>=
    chompCount Char.isDigit 2 >>= chompChar ':' >>= chompCount Char.isDigit 2

/-- Match `\d{2}-[A-Za-z]{3}-\d{4}\s+\d{2}:\d{2}` at the head of the
input. -/
def matchDMYDate (cs : List Char) : Option (List Char) :=
  chompCount Char.isDigit 2 cs >>= chompChar '-' >>= chompCount Char.isAlpha 3 >>=
    chompChar '-' >>= chompCount Char.isDigit 4 >>= chompMany1 Char.isWhitespace >>=
    chompCount Char.isDigit 2 >>= chompChar ':' >>= chompCount Char.isDigit 2

/-- Does either full pattern match starting exactly here? -/
def preLineHit (cs : List Char) : Bool :=
  (match matchISODate cs with | some r => spaceSizeName r | none => false) ||
  (match matchDMYDate cs with | some r => spaceSizeName r | none => false)

/-- Does either pattern match starting at any position (`RegExp.test`)? -/
def anyPosHit : List Char → Bool
  | [] => false
  | c :: cs => preLineHit (c :: cs) || anyPosHit cs

/-! ### Detector atoms and decision -/

/-- Title check: starts with "index of ", contains "autoindex", or
matches `/directory/i` — all on the lowercased title. -/
def hasIndexTitleB (doc : Document) : Bool :=
  let t := jsToLower doc.title
  strStarts t "index of " || strHas t "autoindex" || strHas t "directory"

/-- Is there an anchor whose text matches `/parent directory/i`? -/
def hasParentLinkB (doc : Document) : Bool :=
  doc.anchors.any (fun a => strHas (jsToLower a.text) "parent directory")

/-- Is there a `pre` block (`!!$('pre', doc)`)? -/
def hasPreB (doc : Document) : Bool := !doc.preTexts.isEmpty

/-- Is there a `table` element (`!!$('table', doc)`)? -/
def hasTableB (doc : Document) : Bool := doc.hasTableElem

/-- Content test of the first `pre` block. -/
def preDirSig (doc : Document) : Bool :=
  match doc.preTexts with
  | [] => false
  | t :: _ => anyPosHit t.toList

/-- Content test of the table headings: some `th`/first-`td` text,
trimmed and lowercased, matches `/name|last modified|size|description/i`. -/
def tableDirSig (doc : Document) : Bool :=
  doc.headCells.any (fun cell =>
    let h := jsToLower (jsTrim cell)
    strHas h "name" || strHas h "last modified" || strHas h "size" || strHas h "description")

/-- Count of `a[href]` anchors passing `isFunctionalLink`. -/
def functionalLinkCount (doc : Document) : Nat :=
  (doc.anchors.filter (fun a => a.hrefAttr.isSome && isFunctionalLink a)).length

/-- Embedding of `looksLikeAutoIndex` (`NiceThumbsBuddy.user.js` lines
247-274).  `hasDirectoryPattern` starts false, is set from the first
`pre` block when one exists, and is then overwritten by the heading
test whenever a table exists — hence the nested conditional. -/
def looksLikeAutoIndex (doc : Document) : Bool :=
  (hasIndexTitleB doc || hasParentLinkB doc ||
    (if hasTableB doc then tableDirSig doc
     else if hasPreB doc then preDirSig doc
     else false) ||
    (hasPreB doc && hasTableB doc)) && decide (functionalLinkCount doc ≥ 3)

/-- Modelled from the spec: the claim's decision formula, in which the
directory content pattern is the plain disjunction of the `pre` line
pattern and the table heading pattern. -/
def looksLikeAutoIndexClaim (doc : Document) : Bool :=
  (hasIndexTitleB doc || hasParentLinkB doc ||
    ((hasPreB doc && preDirSig doc) || (hasTableB doc && tableDirSig doc)) ||
    (hasPreB doc && hasTableB doc)) && decide (functionalLinkCount doc ≥ 3)

/-- C1: the detector returns true exactly when the claim's formula
holds — (index-style title OR parent-directory anchor OR directory
content pattern OR (pre block AND table)) AND at least 3 functional
anchors; in particular a document with fewer than 3 functional anchors
is never classified as an autoindex page. -/
theorem looksLikeAutoIndex_spec (doc : Document) :
    looksLikeAutoIndex doc = looksLikeAutoIndexClaim doc ∧
    (functionalLinkCount doc < 3 → looksLikeAutoIndex doc = false) := by
  constructor
  · unfold looksLikeAutoIndex looksLikeAutoIndexClaim
    cases ht : hasTableB doc <;> cases hp : hasPreB doc <;>
      cases hsig : preDirSig doc <;> simp [ht, hp, hsig]
  · intro hlt
    unfold looksLikeAutoIndex
    have : decide (functionalLinkCount doc ≥ 3) = false := by
      simp
      omega
    rw [this]
    simp

/-- Concrete two-anchor document for the C1 witness: an index-style
title but only two functional anchors. -/
def smallDoc : Document :=
  { title := "Index of /photos/",
    anchors :=
      [{ hrefAttr := some "a.jpg", domHref := "http://host/photos/a.jpg", text := "a.jpg" },
       { hrefAttr := some "b.jpg", domHref := "http://host/photos/b.jpg", text := "b.jpg" }],
    preTexts := ["a.jpg\nb.jpg"],
    hasTableElem := false,
    headCells := [] }

/-- C1 witness: on the concrete document the detector agrees with the
claim formula, and with only 2 functional anchors it answers false. -/
theorem looksLikeAutoIndex_spec_witness :
    looksLikeAutoIndex smallDoc = looksLikeAutoIndexClaim smallDoc ∧
    looksLikeAutoIndex smallDoc = false :=
  ⟨(looksLikeAutoIndex_spec smallDoc).1,
   (looksLikeAutoIndex_spec smallDoc).2 (by decide)⟩

/-! ## Listing parser (`parseIndex`)

Source (`NiceThumbsBuddy.user.js` lines 366-436).  URL resolution
(`abs`, i.e. `new URL(href, base).href` with the original string kept
on failure) and `decodeURIComponent` are host functionality, passed in
as `resolve` and `decode`; the natural comparator `nat` from
`Intl.Collator` is passed in as `natCmp`, returning a JavaScript
comparator value (negative/zero/positive integer). -/

/-- Suffix test on strings (JavaScript `String.prototype.endsWith`
with a one-character pattern, and the `$`-anchored extension
regexes). -/
def strEnds (s pat : String) : Bool := charsStartWith pat.toList.reverse s.toList.reverse

/-- Embedding of `s.split(x)[0]`: the part before the first occurrence
of the separator. -/
def jsSplitHead (s : String) (x : Char) : String :=
  String.mk (s.toList.takeWhile (fun c => c ≠ x))

/-- Embedding of `url.split('/').pop()`: the part after the last `/`
(the whole string when there is none). -/
def afterLastSlash (s : String) : String :=
  String.mk ((s.toList.reverse.takeWhile (fun c => c ≠ '/')).reverse)

/-- Extensions of `IMG_EXT` in `/\.(avif|webp|jpe?g|png|gif|bmp|svg)$/i`. -/
def imgExts : List String :=
  ["avif", "webp", "jpeg", "jpg", "png", "gif", "bmp", "svg"]

/-- Extensions of `FILE_EXT`, a superset adding
`heic|tif?f|mp4|mov|webm|mkv|pdf|zip|rar|7z|tar|gz`. -/
def fileExts : List String :=
  imgExts ++ ["heic", "tif", "tiff", "mp4", "mov", "webm", "mkv", "pdf",
    "zip", "rar", "7z", "tar", "gz"]

/-- Embedding of `isDirHref`: the href with fragment then query
stripped ends in `/`. -/
def isDirHref (href : String) : Bool :=
  strEnds (jsSplitHead (jsSplitHead href '#') '?') "/"

/-- Embedding of `isImgHref`: `IMG_EXT.test(href.split('?')[0])`. -/
def isImgHref (href : String) : Bool :=
  imgExts.any (fun e => strEnds (jsToLower (jsSplitHead href '?')) ("." ++ e))

/-- Embedding of `isFileHref`: `FILE_EXT.test(href.split('?')[0])`. -/
def isFileHref (href : String) : Bool :=
  fileExts.any (fun e => strEnds (jsToLower (jsSplitHead href '?')) ("." ++ e))

/-- Embedding of `getExt`: lowercased part after the final `.` of the
final path segment, empty when the segment has no `.`. -/
def getExt (url : String) : String :=
  let filename := afterLastSlash url
  if filename.toList.contains '.' then
    jsToLower (String.mk ((filename.toList.reverse.takeWhile (fun c => c ≠ '.')).reverse))
  else ""

/-- One parsed listing entry (`ListingEntry` of §3): directories carry
a folder `type`, images and files an extension and the row metadata. -/
structure Entry where
  kind : String
  url : String
  name : String
  type : Option String := none
  ext : Option String := none
  bytes : Option Nat := none
  mtime : Option String := none
deriving DecidableEq

/-- Per-page safety cap `MAX_ITEMS_PAGE` (12000 in this product line;
the compact variant historically used 15000). -/
def MAX_ITEMS_PAGE : Nat := 12000

/-- Embedding of the `SELECTORS` strategy walk: `pre a[href]`, then
`table a[href]`, then `a[href]`, first non-empty result wins. -/
def selectAnchors (doc : Document) : List Anchor :=
  let s1 := doc.anchors.filter (fun a => a.inPre && a.hrefAttr.isSome)
  if !s1.isEmpty then s1
  else
    let s2 := doc.anchors.filter (fun a => a.inTable && a.hrefAttr.isSome)
    if !s2.isEmpty then s2
    else doc.anchors.filter (fun a => a.hrefAttr.isSome)

/-- Decision of one loop iteration of `parseIndex`: skip parent/self
and non-functional links, resolve the URL, derive the display name
(anchor text, else the decoded final path segment; trimmed; trailing
slash stripped), then classify as `dir`, `img` or `file`; `none` means
the anchor contributes no entry. -/
def anchorEntry? (resolve : String → String → String) (decode : String → String)
    (baseUrl : String) (a : Anchor) : Option Entry :=
  let href := a.hrefAttr.getD ""
  if href = "" || href = "../" || href = "./" || href = "/" then none
  else
    let url := resolve href baseUrl
    if !isFunctionalLink a then none
    else
      let name0 := jsTrim (if a.text = "" then decode (afterLastSlash url) else a.text)
      let name := if strEnds name0 "/" then String.mk name0.toList.dropLast else name0
      if name = "" then none
      else if isDirHref href then
        some { kind := "dir", url := url, name := name,
               type := some (getFolderType name) }
      else if isImgHref href then
        some { kind := "img", url := url, name := name, ext := some (getExt url),
               bytes := a.meta.bytes, mtime := a.meta.mtime }
      else if isFileHref href then
        some { kind := "file", url := url, name := name, ext := some (getExt url),
               bytes := a.meta.bytes, mtime := a.meta.mtime }
      else none

/-- The three accumulation buckets of the parse loop. -/
structure ParseAcc where
  dirs : List Entry := []
  images : List Entry := []
  files : List Entry := []
deriving DecidableEq

/-- Combined entry count (`dirs.length + images.length + files.length`). -/
def accTotal (acc : ParseAcc) : Nat :=
  acc.dirs.length + acc.images.length + acc.files.length

/-- Push one classified entry into its bucket. -/
def pushEntry (acc : ParseAcc) (e : Entry) : ParseAcc :=
  if e.kind = "dir" then { acc with dirs := acc.dirs ++ [e] }
  else if e.kind = "img" then { acc with images := acc.images ++ [e] }
  else { acc with files := acc.files ++ [e] }

/-- The anchor loop of `parseIndex`, stopping once the combined count
reaches `MAX_ITEMS_PAGE`. -/
def parseLoop (resolve : String → String → String) (decode : String → String)
    (baseUrl : String) : List Anchor → ParseAcc → ParseAcc
  | [], acc => acc
  | a :: rest, acc =>
    match anchorEntry? resolve decode baseUrl a with
    | none => parseLoop resolve decode baseUrl rest acc
    | some e =>
      let acc2 := pushEntry acc e
      if accTotal acc2 ≥ MAX_ITEMS_PAGE then acc2
      else parseLoop resolve decode baseUrl rest acc2

/-- The bucket accumulation of `parseIndex` before deduplication and
sorting. -/
def parseBuckets (resolve : String → String → String) (decode : String → String)
    (doc : Document) (baseUrl : String) : ParseAcc :=
  parseLoop resolve decode baseUrl (selectAnchors doc) {}

/-- Embedding of the `uniq` helper's filter with its `seen` set. -/
def uniqAux : List String → List Entry → List Entry
  | _, [] => []
  | seen, x :: xs =>
    if x.url ∈ seen then uniqAux seen xs
    else x :: uniqAux (x.url :: seen) xs

/-- Embedding of `uniq`: keep the first occurrence of each URL. -/
def uniqList (l : List Entry) : List Entry := uniqAux [] l

/-- The sort predicate `byName = (a, b) => nat(a.name, b.name)` read as
"does not compare greater": JavaScript's sort places `a` no later than
`b` exactly when the comparator is ≤ 0. -/
def entryLe (natCmp : String → String → Int) (a b : Entry) : Bool :=
  natCmp a.name b.name ≤ 0

/-- The parser's result record. -/
structure ParsedIndex where
  dirs : List Entry
  images : List Entry
  files : List Entry

/-- Embedding of `parseIndex(doc, baseUrl)`: accumulate buckets, then
deduplicate each by URL (first occurrence wins) and sort it by the
natural comparator on names.  JavaScript `Array.prototype.sort` is a
stable sort; it is modelled by `List.mergeSort`. -/
def parseIndex (resolve : String → String → String) (decode : String → String)
    (natCmp : String → String → Int) (doc : Document) (baseUrl : String) : ParsedIndex :=
  let acc := parseBuckets resolve decode doc baseUrl
  { dirs := (uniqList acc.dirs).mergeSort (entryLe natCmp),
    images := (uniqList acc.images).mergeSort (entryLe natCmp),
    files := (uniqList acc.files).mergeSort (entryLe natCmp) }

/-! ### Parser lemmas -/

theorem pushEntry_total (acc : ParseAcc) (e : Entry) :
    accTotal (pushEntry acc e) = accTotal acc + 1 := by
  unfold pushEntry accTotal
  split
  · simp only [List.length_append, List.length_cons, List.length_nil]
    omega
  · split <;>
      · simp only [List.length_append, List.length_cons, List.length_nil]
        omega

theorem parseLoop_total_le (resolve : String → String → String)
    (decode : String → String) (baseUrl : String) :
    ∀ (l : List Anchor) (acc : ParseAcc), accTotal acc < MAX_ITEMS_PAGE →
      accTotal (parseLoop resolve decode baseUrl l acc) ≤ MAX_ITEMS_PAGE := by
  intro l
  induction l with
  | nil =>
    intro acc h
    simp only [parseLoop]
    omega
  | cons a rest ih =>
    intro acc h
    simp only [parseLoop]
    cases hE : anchorEntry? resolve decode baseUrl a with
    | none => exact ih acc h
    | some e =>
      simp only
      have ht : accTotal (pushEntry acc e) = accTotal acc + 1 := pushEntry_total acc e
      by_cases hge : accTotal (pushEntry acc e) ≥ MAX_ITEMS_PAGE
      · rw [if_pos hge]
        omega
      · rw [if_neg hge]
        exact ih _ (by omega)

theorem uniqAux_length_le : ∀ (l : List Entry) (seen : List String),
    (uniqAux seen l).length ≤ l.length := by
  intro l
  induction l with
  | nil => intro seen; simp [uniqAux]
  | cons x xs ih =>
    intro seen
    unfold uniqAux
    split
    · exact Nat.le_trans (ih seen) (Nat.le_succ _)
    · simpa using ih (x.url :: seen)

theorem mergeSort_length (l : List Entry) (le : Entry → Entry → Bool) :
    (l.mergeSort le).length = l.length :=
  (List.mergeSort_perm l le).length_eq

theorem uniqAux_urls : ∀ (l : List Entry) (seen : List String),
    ((uniqAux seen l).map Entry.url).Nodup ∧
    (∀ u ∈ (uniqAux seen l).map Entry.url, u ∉ seen) := by
  intro l
  induction l with
  | nil => intro seen; simp [uniqAux]
  | cons x xs ih =>
    intro seen
    unfold uniqAux
    by_cases hmem : x.url ∈ seen
    · rw [if_pos hmem]
      exact ih seen
    · rw [if_neg hmem]
      obtain ⟨ihn, ihs⟩ := ih (x.url :: seen)
      refine ⟨?_, ?_⟩
      · simp only [List.map_cons, List.nodup_cons]
        refine ⟨?_, ihn⟩
        intro hx
        have := ihs x.url hx
        simp at this
      · intro u hu
        simp only [List.map_cons, List.mem_cons] at hu
        rcases hu with rfl | hu
        · exact hmem
        · have := ihs u hu
          intro hus
          exact this (List.mem_cons_of_mem _ hus)

theorem uniqAux_find : ∀ (l : List Entry) (seen : List String) (e : Entry),
    e ∈ uniqAux seen l →
    e.url ∉ seen ∧ l.find? (fun x => x.url == e.url) = some e := by
  intro l
  induction l with
  | nil => intro seen e he; simp [uniqAux] at he
  | cons x xs ih =>
    intro seen e he
    unfold uniqAux at he
    by_cases hmem : x.url ∈ seen
    · rw [if_pos hmem] at he
      obtain ⟨hnot, hfind⟩ := ih seen e he
      have hne : (x.url == e.url) = false := by
        simp only [beq_eq_false_iff_ne, ne_eq]
        intro hx
        exact hnot (hx ▸ hmem)
      exact ⟨hnot, by simp only [List.find?, hne]; exact hfind⟩
    · rw [if_neg hmem] at he
      rcases List.mem_cons.mp he with rfl | he
      · refine ⟨hmem, ?_⟩
        simp [List.find?]
      · obtain ⟨hnot, hfind⟩ := ih (x.url :: seen) e he
        have hnotseen : e.url ∉ seen := fun hs => hnot (List.mem_cons_of_mem _ hs)
        have hnex : (x.url == e.url) = false := by
          simp only [beq_eq_false_iff_ne, ne_eq]
          intro hx
          exact hnot (hx ▸ List.mem_cons_self _ _)
        exact ⟨hnotseen, by simp only [List.find?, hnex]; exact hfind⟩

/-- Properties claimed of each returned list `L` relative to its
pre-dedup bucket `B`: at most one entry per resolved URL, each entry
is the first-encountered accepted entry for its URL (name included),
and `L` is sorted ascending on names by the natural comparator. -/
def bucketProps (natCmp : String → String → Int) (B L : List Entry) : Prop :=
  (L.map Entry.url).Nodup ∧
  (∀ e ∈ L, B.find? (fun x => x.url == e.url) = some e) ∧
  L.Pairwise (fun a b => natCmp a.name b.name ≤ 0)

theorem uniq_sort_props (natCmp : String → String → Int)
    (htrans : ∀ a b c : String, natCmp a b ≤ 0 → natCmp b c ≤ 0 → natCmp a c ≤ 0)
    (htotal : ∀ a b : String, natCmp a b ≤ 0 ∨ natCmp b a ≤ 0)
    (B : List Entry) :
    bucketProps natCmp B ((uniqList B).mergeSort (entryLe natCmp)) := by
  have hperm : ((uniqList B).mergeSort (entryLe natCmp)).Perm (uniqList B) :=
    List.mergeSort_perm _ _
  refine ⟨?_, ?_, ?_⟩
  · have hnd := (uniqAux_urls B []).1
    exact ((hperm.map Entry.url).nodup_iff).mpr hnd
  · intro e he
    have he' : e ∈ uniqList B := hperm.mem_iff.mp he
    exact (uniqAux_find B [] e he').2
  · have htr : ∀ a b c : Entry, entryLe natCmp a b → entryLe natCmp b c →
        entryLe natCmp a c := by
      intro a b c hab hbc
      simp only [entryLe, decide_eq_true_eq] at hab hbc ⊢
      exact htrans _ _ _ hab hbc
    have hto : ∀ a b : Entry, entryLe natCmp a b || entryLe natCmp b a := by
      intro a b
      rcases htotal a.name b.name with h | h <;> simp [entryLe, h]
    have hp := List.sorted_mergeSort htr hto (uniqList B)
    exact hp.imp (fun h => by simpa [entryLe] using h)

/-- C2: each of the three lists returned by `parseIndex` holds at most
one entry per resolved URL; a URL accepted through several anchors
keeps the entry built from the first-encountered anchor of its bucket,
name included; and each list is sorted ascending on names by the
natural comparator (assumed to be a consistent comparator: transitive
and total in the ≤-0 sense, as `Intl.Collator.compare` is). -/
theorem parseIndex_dedup_sorted (resolve : String → String → String)
    (decode : String → String) (natCmp : String → String → Int)
    (doc : Document) (baseUrl : String)
    (htrans : ∀ a b c : String, natCmp a b ≤ 0 → natCmp b c ≤ 0 → natCmp a c ≤ 0)
    (htotal : ∀ a b : String, natCmp a b ≤ 0 ∨ natCmp b a ≤ 0) :
    bucketProps natCmp (parseBuckets resolve decode doc baseUrl).dirs
      (parseIndex resolve decode natCmp doc baseUrl).dirs ∧
    bucketProps natCmp (parseBuckets resolve decode doc baseUrl).images
      (parseIndex resolve decode natCmp doc baseUrl).images ∧
    bucketProps natCmp (parseBuckets resolve decode doc baseUrl).files
      (parseIndex resolve decode natCmp doc baseUrl).files :=
  ⟨uniq_sort_props natCmp htrans htotal _,
   uniq_sort_props natCmp htrans htotal _,
   uniq_sort_props natCmp htrans htotal _⟩

/-- C3: the parse loop stops once the combined entry count reaches the
per-page maximum, and deduplication and sorting only shrink or permute
the buckets, so the three returned lists never hold more than
`MAX_ITEMS_PAGE = 12000` entries in total. -/
theorem parseIndex_respects_cap (resolve : String → String → String)
    (decode : String → String) (natCmp : String → String → Int)
    (doc : Document) (baseUrl : String) :
    (parseIndex resolve decode natCmp doc baseUrl).dirs.length +
      (parseIndex resolve decode natCmp doc baseUrl).images.length +
      (parseIndex resolve decode natCmp doc baseUrl).files.length ≤ MAX_ITEMS_PAGE ∧
    MAX_ITEMS_PAGE = 12000 := by
  refine ⟨?_, rfl⟩
  have hloop := parseLoop_total_le resolve decode baseUrl (selectAnchors doc)
    {} (by simp [accTotal, MAX_ITEMS_PAGE])
  unfold accTotal at hloop
  unfold parseIndex
  simp only [mergeSort_length]
  have h1 := uniqAux_length_le (parseBuckets resolve decode doc baseUrl).dirs []
  have h2 := uniqAux_length_le (parseBuckets resolve decode doc baseUrl).images []
  have h3 := uniqAux_length_le (parseBuckets resolve decode doc baseUrl).files []
  unfold uniqList
  unfold parseBuckets at *
  omega

/-- A consistent comparator for the C2 witness: compare strings by
length. -/
def natCmpLen : String → String → Int :=
  fun a b => (a.length : Int) - (b.length : Int)

/-- Concrete document for the C2 witness: two anchors resolving to the
same URL with different link text. -/
def dupDoc : Document :=
  { anchors :=
      [{ hrefAttr := some "x.jpg", domHref := "http://h/x.jpg", text := "first" },
       { hrefAttr := some "x.jpg", domHref := "http://h/x.jpg", text := "second" },
       { hrefAttr := some "y.png", domHref := "http://h/y.png", text := "other" }] }

/-- C2 witness: the deduplication, first-occurrence and sortedness
properties at a concrete document with a duplicated URL, a concrete
resolver and a concrete consistent comparator. -/
theorem parseIndex_dedup_sorted_witness :
    bucketProps natCmpLen (parseBuckets (fun h _ => h) (fun s => s) dupDoc "http://h/").dirs
      (parseIndex (fun h _ => h) (fun s => s) natCmpLen dupDoc "http://h/").dirs ∧
    bucketProps natCmpLen (parseBuckets (fun h _ => h) (fun s => s) dupDoc "http://h/").images
      (parseIndex (fun h _ => h) (fun s => s) natCmpLen dupDoc "http://h/").images ∧
    bucketProps natCmpLen (parseBuckets (fun h _ => h) (fun s => s) dupDoc "http://h/").files
      (parseIndex (fun h _ => h) (fun s => s) natCmpLen dupDoc "http://h/").files :=
  parseIndex_dedup_sorted (fun h _ => h) (fun s => s) natCmpLen dupDoc "http://h/"
    (by
      intro a b c hab hbc
      simp only [natCmpLen] at hab hbc ⊢
      omega)
    (by
      intro a b
      simp only [natCmpLen]
      omega)
